import Mathlib

/-
Verification development for src/engine/plugins/tile.cpp (OSRM tile plugin).

The file shallowly embeds the tile plugin: the facade (graph storage, R-tree,
shortcut unpacking) and the floating-point geometric primitives
(web-mercator projection, boost::geometry intersection/haversine/bearing)
are supplied as an environment `Env`; everything the plugin itself computes
(interning, turn reconstruction, feature emission, layer assembly) is
embedded as executable Lean functions, with C++ doubles modelled as `ℚ`.
-/

namespace OsrmTile

/-- Fixed-point WGS84 coordinate, as stored in util::Coordinate
(integer lon/lat fields). -/
structure Coordinate where
  lon : Int
  lat : Int
  deriving DecidableEq

/-- A segment id together with its direction-enabled flag
(edge.forward_segment_id / edge.reverse_segment_id in the source). -/
structure SegmentID where
  id : Nat
  enabled : Bool
  deriving DecidableEq

/-- Connected-component information of an edge; only the `is_tiny` flag is
read by the plugin (edge.component.is_tiny). -/
structure Component where
  is_tiny : Bool
  deriving DecidableEq

/-- Sentinel geometry id meaning "this direction has no geometry"
(SPECIAL_EDGEID, the maximal EdgeID value). -/
def SPECIAL_EDGEID : Nat := 2 ^ 32 - 1

/-- The fields of the RTree edge record that tile.cpp reads. -/
structure EdgeInfo where
  u : Nat
  v : Nat
  forward_segment_id : SegmentID
  reverse_segment_id : SegmentID
  fwd_segment_position : Nat
  forward_packed_geometry_id : Nat
  reverse_packed_geometry_id : Nat
  component : Component
  deriving DecidableEq

/-- The fields of contractor::QueryEdge::EdgeData that tile.cpp reads
(shortcut id, total weight `distance`, forward-traversal flag). -/
structure EdgeData where
  id : Nat
  distance : Int
  forward : Bool
  deriving DecidableEq

/-- detail::TurnData: three offsets into the turn value table. -/
structure TurnData where
  in_angle_offset : Nat
  out_angle_offset : Nat
  weight_offset : Nat
  deriving DecidableEq

/-- The read-only facade and the external geometric primitives used by one
request.  Facade members are the datafacade calls of the source; `bearing`,
`haversineDistance`, `projectPx` and `clipLine` model the floating-point
routines of util::coordinate_calculation / util::web_mercator /
boost::geometry (doubles modelled as `ℚ`).  `edges` is the result of
facade.GetEdgesInBox for this request's bounding box, and `projectPx` is the
tile-pixel projection (including std::round) through this request's
mercator bounding box. -/
structure Env where
  edges : List EdgeInfo
  getUncompressedWeights : Nat → List Int
  getUncompressedDatasources : Nat → List Nat
  getUncompressedGeometry : Nat → List Nat
  getCoordinateOfNode : Nat → Coordinate
  getAdjacentEdgeRange : Nat → List Nat
  getEdgeData : Nat → EdgeData
  getTarget : Nat → Nat
  unpackEdgeToEdges : Nat → Nat → List EdgeData
  getGeometryIndexForEdgeID : Nat → Nat
  getDatasourceName : Nat → String
  bearing : Coordinate → Coordinate → Nat
  haversineDistance : Coordinate → Coordinate → ℚ
  projectPx : Coordinate → ℚ × ℚ
  clipLine : ℚ × ℚ → ℚ × ℚ → List (List (ℚ × ℚ))

/-- First-match lookup in an association list; models lookup in the
std::unordered_map locals of HandleRequest (the maps never hold two
entries with the same key). -/
def lookupAssoc {α β : Type} [DecidableEq α] : List (α × β) → α → Option β
  | [], _ => none
  | (k, v) :: rest, key => if k = key then some v else lookupAssoc rest key

/-- One of the two interning tables of HandleRequest: the parallel pair of
locals (used_line_ints, line_int_offsets), resp.
(used_point_ints, point_int_offsets). -/
structure ValueTable where
  used_ints : List Int
  int_offsets : List (Int × Nat)
  deriving DecidableEq

/-- The use_line_value lambda: record `value` in the table if it is new;
no value is returned. -/
def use_line_value (s : ValueTable) (value : Int) : ValueTable :=
  match lookupAssoc s.int_offsets value with
  | some _ => s
  | none =>
      let used := s.used_ints ++ [value]
      { used_ints := used, int_offsets := s.int_offsets ++ [(value, used.length - 1)] }

/-- The use_point_value lambda: record `value` if new and return its offset. -/
def use_point_value (s : ValueTable) (value : Int) : Nat × ValueTable :=
  match lookupAssoc s.int_offsets value with
  | some off => (off, s)
  | none =>
      let used := s.used_ints ++ [value]
      let off := used.length - 1
      (off, { used_ints := used, int_offsets := s.int_offsets ++ [(value, off)] })

/-- Per-direction weight as the tally and emission passes compute it: 0 when
the direction has no geometry, else forward_weight_vector[fwd_segment_position]. -/
def forwardWeight (env : Env) (edge : EdgeInfo) : Int :=
  if edge.forward_packed_geometry_id = SPECIAL_EDGEID then 0
  else (env.getUncompressedWeights edge.forward_packed_geometry_id).getD
    edge.fwd_segment_position 0

/-- Forward datasource id (0 when the direction has no geometry). -/
def forwardDatasource (env : Env) (edge : EdgeInfo) : Nat :=
  if edge.forward_packed_geometry_id = SPECIAL_EDGEID then 0
  else (env.getUncompressedDatasources edge.forward_packed_geometry_id).getD
    edge.fwd_segment_position 0

/-- Reverse weight: reverse_weight_vector[size - fwd_segment_position - 1]. -/
def reverseWeight (env : Env) (edge : EdgeInfo) : Int :=
  if edge.reverse_packed_geometry_id = SPECIAL_EDGEID then 0
  else
    let v := env.getUncompressedWeights edge.reverse_packed_geometry_id
    v.getD (v.length - edge.fwd_segment_position - 1) 0

/-- Reverse datasource id. -/
def reverseDatasource (env : Env) (edge : EdgeInfo) : Nat :=
  if edge.reverse_packed_geometry_id = SPECIAL_EDGEID then 0
  else
    let v := env.getUncompressedDatasources edge.reverse_packed_geometry_id
    v.getD (v.length - edge.fwd_segment_position - 1) 0

/-- Processing of one adjacent shortcut inside the tally loop: filtered out
(`none`) when forward traversal is disabled or the unpacked shortcut has
fewer than 2 edges; otherwise yields the pair
(first node of the second unpacked edge, turn weight). -/
def shortcutTurn (env : Env) (segment_id : Nat) (sum_node_weight : Int)
    (adj_shortcut : Nat) : Option (Nat × Int) :=
  if !(env.getEdgeData adj_shortcut).forward then none
  else
    let unpacked_shortcut := env.unpackEdgeToEdges segment_id (env.getTarget adj_shortcut)
    if unpacked_shortcut.length < 2 then none
    else
      let first_geometry_id :=
        env.getGeometryIndexForEdgeID (unpacked_shortcut.getD 1 ⟨0, 0, false⟩).id
      let first_geometry_vector := env.getUncompressedGeometry first_geometry_id
      let sum_edge_weight := (unpacked_shortcut.getD 0 ⟨0, 0, false⟩).distance
      let turn_weight := sum_edge_weight - sum_node_weight
      some (first_geometry_vector.getD 0 0, turn_weight)

/-- std::unordered_map::emplace on the c_nodes map: inserts only when the key
is not yet present (an existing entry is NOT overwritten). -/
def emplaceAssoc (m : List (Nat × Int)) (k : Nat) (v : Int) : List (Nat × Int) :=
  match lookupAssoc m k with
  | some _ => m
  | none => m ++ [(k, v)]

/-- The c_nodes map accumulated over all adjacent shortcuts. -/
def cNodes (env : Env) (segment_id : Nat) (sum_node_weight : Int)
    (adjacent : List Nat) : List (Nat × Int) :=
  adjacent.foldl
    (fun m adj =>
      match shortcutTurn env segment_id sum_node_weight adj with
      | none => m
      | some kv => emplaceAssoc m kv.1 kv.2)
    []

/-- The loop over c_nodes that interns angle_out and turn_weight and emits one
TurnData record per entry. -/
def recordsFromCNodes (env : Env) (coord_b : Coordinate) (angle_in_offset : Nat)
    (cs : List (Nat × Int)) (point : ValueTable) : List TurnData × ValueTable :=
  cs.foldl
    (fun acc possible_next_node =>
      let coord_c := env.getCoordinateOfNode possible_next_node.1
      let c_bearing := env.bearing coord_b coord_c
      let res1 := use_point_value acc.2 (Int.ofNat c_bearing)
      let res2 := use_point_value res1.2 possible_next_node.2
      (acc.1 ++ [⟨angle_in_offset, res1.1, res2.1⟩], res2.2))
    ([], point)

/-- The turn-reconstruction block of the tally loop for one edge: produces
this edge's edge_turn_data and the updated point value table. -/
def edgeTurnData (env : Env) (edge : EdgeInfo) (point : ValueTable) :
    List TurnData × ValueTable :=
  if edge.forward_packed_geometry_id = SPECIAL_EDGEID then ([], point)
  else
    let forward_weight_vector := env.getUncompressedWeights edge.forward_packed_geometry_id
    let forward_node_vector := env.getUncompressedGeometry edge.forward_packed_geometry_id
    if (edge.fwd_segment_position : Int) = (forward_node_vector.length : Int) - 1 then
      let sum_node_weight := forward_weight_vector.foldl (· + ·) 0
      let coord_a := env.getCoordinateOfNode
        (if forward_node_vector.length > 1 then
           forward_node_vector.getD (forward_node_vector.length - 2) 0
         else edge.u)
      let coord_b := env.getCoordinateOfNode edge.v
      let c_nodes := cNodes env edge.forward_segment_id.id sum_node_weight
        (env.getAdjacentEdgeRange edge.forward_segment_id.id)
      let angle_in := env.bearing coord_a coord_b
      if c_nodes.length > 0 then
        let res := use_point_value point (Int.ofNat angle_in)
        recordsFromCNodes env coord_b res.1 c_nodes res.2
      else ([], point)
    else ([], point)

/-- Request-local state accumulated by the tally loop. -/
structure TallyState where
  line : ValueTable
  point : ValueTable
  max_datasource_id : Nat
  all_turn_data : List (List TurnData)
  deriving DecidableEq

/-- Body of the tally loop for one edge: intern the forward weight (when the
forward direction has geometry), run turn reconstruction, intern the reverse
weight, update max_datasource_id and append this edge's turn-data list. -/
def tallyEdge (env : Env) (s : TallyState) (edge : EdgeInfo) : TallyState :=
  let line1 :=
    if edge.forward_packed_geometry_id = SPECIAL_EDGEID then s.line
    else use_line_value s.line (forwardWeight env edge)
  let tdres := edgeTurnData env edge s.point
  let line2 :=
    if edge.reverse_packed_geometry_id = SPECIAL_EDGEID then line1
    else use_line_value line1 (reverseWeight env edge)
  { line := line2
    point := tdres.2
    max_datasource_id :=
      max (max s.max_datasource_id (forwardDatasource env edge)) (reverseDatasource env edge)
    all_turn_data := s.all_turn_data ++ [tdres.1] }

/-- The complete tally pass over all edges in the box. -/
def tally (env : Env) : TallyState :=
  env.edges.foldl (tallyEdge env) ⟨⟨[], []⟩, ⟨[], []⟩, 0, []⟩

/-- Conversion double → int32 (truncation toward zero), as applied when the
clipped boost points are stored into a FixedLine / FixedPoint. -/
def truncToInt (q : ℚ) : Int := if 0 ≤ q then ⌊q⌋ else ⌈q⌉

/-- coordinatesToTileLine: project both endpoints, clip against the padded
box, and keep the result only when the first clipped part has exactly two
points; otherwise return the empty line. -/
def coordinatesToTileLine (env : Env) (start target : Coordinate) : List (Int × Int) :=
  let clipped_line := env.clipLine (env.projectPx start) (env.projectPx target)
  if clipped_line ≠ [] ∧ (clipped_line.headD []).length = 2 then
    (clipped_line.headD []).map (fun pt => (truncToInt pt.1, truncToInt pt.2))
  else []

/-- coordinatesToTilePoint: project one coordinate to integer tile pixels. -/
def coordinatesToTilePoint (env : Env) (point : Coordinate) : Int × Int :=
  let p := env.projectPx point
  (truncToInt p.1, truncToInt p.2)

/-- util::vector_tile::EXTENT. -/
def EXTENT : Int := 4096

/-- Modelled from the spec: util::vector_tile::BUFFER, the small constant
margin of the padded clip box (the header defining it is outside src/). -/
def BUFFER : Int := 512

/-- boost::geometry::within of an integer tile point against the padded clip
box (strict interior membership). -/
def pointWithinClip (p : Int × Int) : Bool :=
  (-BUFFER < p.1) && (p.1 < EXTENT + BUFFER) && (-BUFFER < p.2) && (p.2 < EXTENT + BUFFER)

/-- protozero::encode_zigzag32. -/
def encode_zigzag32 (n : Int) : Nat :=
  if 0 ≤ n then (2 * n).toNat else (-(2 * n) - 1).toNat

/-- detail::pbf::encode_length: (len << 3) | 2. -/
def encode_length (len : Nat) : Nat := len * 8 + 2

/-- encodeLinestring: one MoveTo command, then one LineTo command with
count = size - 1, with a zigzag-delta cursor.  Returns the success flag,
the packed geometry elements, and the updated cursor. -/
def encodeLinestring (line : List (Int × Int)) (start_x start_y : Int) :
    Bool × List Nat × Int × Int :=
  if line.length < 2 then (false, [], start_x, start_y)
  else
    match line with
    | [] => (false, [], start_x, start_y)
    | pt :: rest =>
        let line_to_length := line.length - 1
        let head_elems :=
          [9, encode_zigzag32 (pt.1 - start_x), encode_zigzag32 (pt.2 - start_y),
           encode_length line_to_length]
        let res := rest.foldl
          (fun (acc : List Nat × Int × Int) (p : Int × Int) =>
            (acc.1 ++ [encode_zigzag32 (p.1 - acc.2.1), encode_zigzag32 (p.2 - acc.2.2)],
             p.1, p.2))
          (head_elems, pt.1, pt.2)
        (true, res)

/-- encodePoint: a single MoveTo with the zigzag-encoded absolute position. -/
def encodePoint (pt : Int × Int) : List Nat :=
  [9, encode_zigzag32 pt.1, encode_zigzag32 pt.2]

/-- MVT geometry type enum values used by the plugin. -/
inductive GeomType
  | point
  | linestring
  deriving DecidableEq

/-- One MVT feature: id, geometry type, packed attribute tag pairs, packed
geometry command stream. -/
structure Feature where
  id : Nat
  geom_type : GeomType
  tags : List Nat
  geometry : List Nat
  deriving DecidableEq

/-- One entry of a layer's shared values array (MVT Value message). -/
inductive Value
  | uint (n : Nat)
  | boolean (b : Bool)
  | str (s : String)
  | dbl (q : ℚ)
  deriving DecidableEq

/-- One MVT layer as the plugin writes it. -/
structure Layer where
  version : Nat
  name : String
  extent : Nat
  features : List Feature
  keys : List String
  values : List Value
  deriving DecidableEq

/-- C's round(): half away from zero. -/
def roundHalfAway (q : ℚ) : Int := if 0 ≤ q then ⌊q + 1 / 2⌋ else ⌈q - 1 / 2⌉

/-- speed_kmh = (uint32_t)round(length / weight * 10 * 3.6). -/
def speed_kmh (length : ℚ) (weight : Int) : Nat :=
  (roundHalfAway (length / (weight : ℚ) * 10 * (36 / 10))).toNat

/-- The encode_tile_line lambda: build one "speeds" feature with the
four attribute tag pairs and the encoded linestring geometry (the cursor
start_x/start_y is freshly zeroed by the caller for every feature). -/
def encode_tile_line (edge : EdgeInfo) (max_datasource_id : Nat) (id : Nat)
    (tile_line : List (Int × Int)) (speed : Nat) (duration : Nat)
    (datasource : Nat) : Feature :=
  { id := id
    geom_type := GeomType.linestring
    tags :=
      [0, min speed 127,
       1, 128 + (if edge.component.is_tiny then 0 else 1),
       2, 130 + datasource,
       3, 130 + max_datasource_id + 1 + duration]
    geometry := (encodeLinestring tile_line 0 0).2.1 }

/-- The forward-direction branch of the line emission loop for one edge:
`some` feature exactly when it is encoded. -/
def forwardLineFeature (env : Env) (line_int_offsets : List (Int × Nat))
    (max_datasource_id : Nat) (edge : EdgeInfo) (id : Nat) : Option Feature :=
  let a := env.getCoordinateOfNode edge.u
  let b := env.getCoordinateOfNode edge.v
  let length := env.haversineDistance a b
  if forwardWeight env edge ≠ 0 ∧ edge.forward_segment_id.enabled = true then
    let tile_line := coordinatesToTileLine env a b
    if tile_line.isEmpty then none
    else some (encode_tile_line edge max_datasource_id id tile_line
      (speed_kmh length (forwardWeight env edge))
      ((lookupAssoc line_int_offsets (forwardWeight env edge)).getD 0)
      (forwardDatasource env edge))
  else none

/-- The reverse-direction branch (coordinates reversed, reverse properties). -/
def reverseLineFeature (env : Env) (line_int_offsets : List (Int × Nat))
    (max_datasource_id : Nat) (edge : EdgeInfo) (id : Nat) : Option Feature :=
  let a := env.getCoordinateOfNode edge.u
  let b := env.getCoordinateOfNode edge.v
  let length := env.haversineDistance a b
  if reverseWeight env edge ≠ 0 ∧ edge.reverse_segment_id.enabled = true then
    let tile_line := coordinatesToTileLine env b a
    if tile_line.isEmpty then none
    else some (encode_tile_line edge max_datasource_id id tile_line
      (speed_kmh length (reverseWeight env edge))
      ((lookupAssoc line_int_offsets (reverseWeight env edge)).getD 0)
      (reverseDatasource env edge))
  else none

/-- State threaded through the line emission loop: the running feature id,
the running max_datasource_id variable, and the features written so far. -/
structure LineEmitState where
  id : Nat
  max_datasource_id : Nat
  features : List Feature
  deriving DecidableEq

/-- Body of the line emission loop for one edge: update max_datasource_id
again (with the same per-direction datasources as the tally pass), then
emit the forward and reverse features if their conditions hold. -/
def emitLineEdge (env : Env) (line_int_offsets : List (Int × Nat))
    (s : LineEmitState) (edge : EdgeInfo) : LineEmitState :=
  let max_ds :=
    max (max s.max_datasource_id (forwardDatasource env edge)) (reverseDatasource env edge)
  let fwd := forwardLineFeature env line_int_offsets max_ds edge s.id
  let id1 := s.id + (if fwd.isSome then 1 else 0)
  let rev := reverseLineFeature env line_int_offsets max_ds edge id1
  let id2 := id1 + (if rev.isSome then 1 else 0)
  { id := id2
    max_datasource_id := max_ds
    features := s.features ++ fwd.toList ++ rev.toList }

/-- The whole line emission loop, started with feature id 1 and the
max_datasource_id carried over from the tally pass. -/
def speedsFeaturesState (env : Env) (line_int_offsets : List (Int × Nat))
    (max0 : Nat) : LineEmitState :=
  env.edges.foldl (emitLineEdge env line_int_offsets) ⟨1, max0, []⟩

/-- Conversion int → uint64 applied by add_uint64 on the interned turn
values. -/
def intToUInt64 (v : Int) : Nat := (v % (2 : Int) ^ 64).toNat

/-- The shared values array of the "speeds" layer exactly as written:
uint64 0..127, bool true, bool false, the datasource names 0..max, then the
interned weights as doubles (deciseconds / 10). -/
def speedsValues (env : Env) (max_datasource_id : Nat)
    (used_line_ints : List Int) : List Value :=
  ((List.range 128).map fun i => Value.uint i)
    ++ [Value.boolean true, Value.boolean false]
    ++ ((List.range (max_datasource_id + 1)).map fun i =>
          Value.str (env.getDatasourceName i))
    ++ (used_line_ints.map fun v => Value.dbl ((v : ℚ) / 10))

/-- The complete "speeds" layer of one request. -/
def speedsLayer (env : Env) : Layer :=
  let t := tally env
  let st := speedsFeaturesState env t.line.int_offsets t.max_datasource_id
  { version := 2
    name := "speeds"
    extent := 4096
    features := st.features
    keys := ["speed", "is_small", "datasource", "duration"]
    values := speedsValues env st.max_datasource_id t.line.used_ints }

/-- The encode_tile_point lambda: build one "turns" feature. -/
def encode_tile_point (id : Nat) (tile_point : Int × Int)
    (point_turn_data : TurnData) : Feature :=
  { id := id
    geom_type := GeomType.point
    tags :=
      [0, point_turn_data.in_angle_offset,
       1, point_turn_data.out_angle_offset,
       2, point_turn_data.weight_offset]
    geometry := encodePoint tile_point }

/-- The inner loop writing one point feature per TurnData record, with
consecutive ids. -/
def pointFeaturesList (tile_point : Int × Int) (id : Nat)
    (tds : List TurnData) : List Feature :=
  (tds.foldl
    (fun acc td => (acc.1 + 1, acc.2 ++ [encode_tile_point acc.1 tile_point td]))
    (id, [])).2

/-- The point emission loop body for one edge: skip when the edge has no
turn data, when its forward segment is not the last segment of its
node-based edge, or when the projected intersection point is not strictly
inside the padded clip box. -/
def pointFeaturesForEdge (env : Env) (edge : EdgeInfo)
    (edge_turn_data : List TurnData) (id : Nat) : List Feature :=
  if edge_turn_data.isEmpty then []
  else
    let forward_node_vector := env.getUncompressedGeometry edge.forward_packed_geometry_id
    if (edge.fwd_segment_position : Int) ≠ (forward_node_vector.length : Int) - 1 then []
    else
      let turn_coordinate := env.getCoordinateOfNode edge.v
      let tile_point := coordinatesToTilePoint env turn_coordinate
      if !pointWithinClip tile_point then []
      else pointFeaturesList tile_point id edge_turn_data

/-- The whole point emission loop over the edge list zipped with the
index-aligned all_turn_data from the tally pass. -/
def turnsEmit (env : Env) (all_turn_data : List (List TurnData)) : List Feature :=
  ((env.edges.zip all_turn_data).foldl
    (fun acc ep =>
      let fs := pointFeaturesForEdge env ep.1 ep.2 acc.1
      (acc.1 + fs.length, acc.2 ++ fs))
    (1, [])).2

/-- The complete "turns" layer of one request. -/
def turnsLayer (env : Env) : Layer :=
  let t := tally env
  { version := 2
    name := "turns"
    extent := 4096
    features := turnsEmit env t.all_turn_data
    keys := ["bearing_in", "bearing_out", "weight"]
    values := t.point.used_ints.map fun v => Value.uint (intToUInt64 v) }

/-- The plugin Status result type (engine::Status). -/
inductive Status
  | Ok
  | Error
  deriving DecidableEq

/-- api::TileParameters: the x, y, z of a slippy-map tile request. -/
structure TileParameters where
  x : Nat
  y : Nat
  z : Nat
  deriving DecidableEq

/-- Modelled from the spec: api::TileParameters::IsValid is declared outside
src/; per spec section 3 a request is valid iff x, y ∈ [0, 2^z). -/
def TileParameters.IsValid (p : TileParameters) : Bool :=
  p.x < 2 ^ p.z && p.y < 2 ^ p.z

/-- TilePlugin::HandleRequest.  The BOOST_ASSERT(parameters.IsValid()) of the
source is a debug-only assertion with no release-build effect; the xyz-to-
bbox conversions and GetEdgesInBox are absorbed into `env`.  The function
unconditionally builds the two layers and returns Status::Ok. -/
def HandleRequest (env : Env) (params : TileParameters) : Status × List Layer :=
  (Status.Ok, [speedsLayer env, turnsLayer env])

/-- Offset of the first occurrence of a value in a list (0 when absent);
the specification's "offset" of an interned value. -/
def offsetIn : List Int → Int → Nat
  | [], _ => 0
  | x :: xs, v => if x = v then 0 else offsetIn xs v + 1

/-- Transcribes the specification's "one entry per distinct value, in
first-seen order": deduplicate a sequence keeping first occurrences. -/
def firstSeenFold (a : List Int) (l : List Int) : List Int :=
  l.foldl (fun acc v => if v ∈ acc then acc else acc ++ [v]) a

/-- First-seen deduplication of a sequence, starting from the empty table. -/
def firstSeenDedup (l : List Int) : List Int := firstSeenFold [] l

/-- The line-table values interned for one edge, in tally order: the forward
weight (when the forward direction has geometry) then the reverse weight
(when the reverse direction has geometry). -/
def edgeLineWeights (env : Env) (edge : EdgeInfo) : List Int :=
  (if edge.forward_packed_geometry_id = SPECIAL_EDGEID then []
   else [forwardWeight env edge])
    ++ (if edge.reverse_packed_geometry_id = SPECIAL_EDGEID then []
        else [reverseWeight env edge])

/-- The full sequence of values passed to use_line_value over the request. -/
def lineWeightSeq (env : Env) : List Int :=
  env.edges.foldl (fun acc e => acc ++ edgeLineWeights env e) []

/-- Transcribes the specification: the maximum datasource id observed across
the forward and reverse directions of all edges in the box. -/
def maxObservedDatasource (env : Env) : Nat :=
  (env.edges.foldl
    (fun acc e => acc ++ [forwardDatasource env e, reverseDatasource env e]) []).foldl
    max 0

/-- Transcribes claim C6's attribute tag pairs for a forward feature:
[0 ↦ min(speed_kmh, 127), 1 ↦ 128 + (is_tiny ? 0 : 1), 2 ↦ 130 + datasource,
3 ↦ 130 + max_datasource_id + 1 + offset_of(weight)], with speed_kmh from the
great-circle length between the edge endpoints. -/
def forwardTags (env : Env) (e : EdgeInfo) : List Nat :=
  [0, min (speed_kmh
        (env.haversineDistance (env.getCoordinateOfNode e.u) (env.getCoordinateOfNode e.v))
        (forwardWeight env e)) 127,
   1, 128 + (if e.component.is_tiny then 0 else 1),
   2, 130 + forwardDatasource env e,
   3, 130 + maxObservedDatasource env + 1
        + offsetIn (firstSeenDedup (lineWeightSeq env)) (forwardWeight env e)]

/-- The same attribute tag pairs for a reverse feature. -/
def reverseTags (env : Env) (e : EdgeInfo) : List Nat :=
  [0, min (speed_kmh
        (env.haversineDistance (env.getCoordinateOfNode e.u) (env.getCoordinateOfNode e.v))
        (reverseWeight env e)) 127,
   1, 128 + (if e.component.is_tiny then 0 else 1),
   2, 130 + reverseDatasource env e,
   3, 130 + maxObservedDatasource env + 1
        + offsetIn (firstSeenDedup (lineWeightSeq env)) (reverseWeight env e)]

/-- Well-formedness of an interning table: the offsets map holds exactly the
values of the used list, each at the offset of its first occurrence. -/
def TableWF (s : ValueTable) : Prop :=
  ∀ v : Int, lookupAssoc s.int_offsets v =
    if v ∈ s.used_ints then some (offsetIn s.used_ints v) else none

/-- Folding use_line_value over a whole sequence of values. -/
def internAll (s : ValueTable) (l : List Int) : ValueTable :=
  l.foldl use_line_value s

/-- A trivial environment: no edges, empty facade answers. -/
def baseEnv : Env where
  edges := []
  getUncompressedWeights := fun _ => []
  getUncompressedDatasources := fun _ => []
  getUncompressedGeometry := fun _ => []
  getCoordinateOfNode := fun _ => ⟨0, 0⟩
  getAdjacentEdgeRange := fun _ => []
  getEdgeData := fun _ => ⟨0, 0, false⟩
  getTarget := fun _ => 0
  unpackEdgeToEdges := fun _ _ => []
  getGeometryIndexForEdgeID := fun _ => 0
  getDatasourceName := fun _ => ""
  bearing := fun _ _ => 0
  haversineDistance := fun _ _ => 0
  projectPx := fun _ => (0, 0)
  clipLine := fun _ _ => []

/-- Environment with one intersection-terminal edge whose two adjacent
shortcuts (ids 1 and 2) both unpack to chains whose second edge starts at
node 5, with turn weights 10 (processed first) and 20 (processed second). -/
def envC1 : Env :=
  { baseEnv with
    getEdgeData := fun _ => ⟨0, 0, true⟩
    getTarget := fun a => a
    unpackEdgeToEdges := fun _ t =>
      if t = 1 then [⟨100, 50, true⟩, ⟨101, 0, true⟩]
      else [⟨100, 60, true⟩, ⟨102, 0, true⟩]
    getGeometryIndexForEdgeID := fun e => e
    getUncompressedGeometry := fun g =>
      if g = 101 then [5, 6] else if g = 102 then [5, 7] else [] }

/-- An edge with a nonzero, enabled forward direction whose segment projects
entirely outside the clip box (the clip result is empty). -/
def edgeC2 : EdgeInfo :=
  { u := 1
    v := 2
    forward_segment_id := ⟨0, true⟩
    reverse_segment_id := ⟨0, false⟩
    fwd_segment_position := 0
    forward_packed_geometry_id := 3
    reverse_packed_geometry_id := SPECIAL_EDGEID
    component := ⟨false⟩ }

/-- Environment for edgeC2: weight 5, but boost clipping yields nothing. -/
def envC2 : Env :=
  { baseEnv with
    edges := [edgeC2]
    getUncompressedWeights := fun _ => [5]
    getUncompressedDatasources := fun _ => [0]
    getUncompressedGeometry := fun _ => [1, 2]
    clipLine := fun _ _ => [] }

/-- An edge whose forward direction claims geometry id 3, for which the
facade returns an empty weight array (shorter than the segment position). -/
def edgeC3 : EdgeInfo :=
  { u := 1
    v := 2
    forward_segment_id := ⟨0, true⟩
    reverse_segment_id := ⟨0, false⟩
    fwd_segment_position := 0
    forward_packed_geometry_id := 3
    reverse_packed_geometry_id := SPECIAL_EDGEID
    component := ⟨false⟩ }

/-- Environment for edgeC3: the facade's attribute arrays are empty, i.e.
not longer than the requested segment position. -/
def envC3 : Env :=
  { baseEnv with
    edges := [edgeC3]
    getUncompressedWeights := fun _ => []
    getUncompressedDatasources := fun _ => []
    getUncompressedGeometry := fun _ => [] }

/-- An out-of-range tile request: x = 4 is not below 2^2. -/
def pC4 : TileParameters := ⟨4, 0, 2⟩

/-- A bidirectional-forward edge that is fully inside the tile. -/
def edgeC6 : EdgeInfo :=
  { u := 1
    v := 2
    forward_segment_id := ⟨0, true⟩
    reverse_segment_id := ⟨0, false⟩
    fwd_segment_position := 0
    forward_packed_geometry_id := 3
    reverse_packed_geometry_id := SPECIAL_EDGEID
    component := ⟨false⟩ }

/-- Environment emitting one forward feature: weight 100 deciseconds,
length 100 meters, clipping keeps the segment unchanged. -/
def envC6 : Env :=
  { baseEnv with
    edges := [edgeC6]
    getUncompressedWeights := fun _ => [100]
    getUncompressedDatasources := fun _ => [0]
    getUncompressedGeometry := fun _ => [1, 2]
    getCoordinateOfNode := fun n => ⟨Int.ofNat n, Int.ofNat n⟩
    haversineDistance := fun _ _ => 100
    projectPx := fun c => ((c.lon : ℚ), (c.lat : ℚ))
    clipLine := fun p q => [[p, q]] }

/-- The single feature emitted by envC6. -/
def fC6 : Feature :=
  ((speedsLayer envC6).features).headD ⟨0, GeomType.point, [], []⟩

/-- An intersection-terminal edge (segment position 1 of a 2-node geometry)
with two outgoing shortcuts, used to exercise the turns layer. -/
def edgeC7 : EdgeInfo :=
  { u := 1
    v := 2
    forward_segment_id := ⟨7, true⟩
    reverse_segment_id := ⟨0, false⟩
    fwd_segment_position := 1
    forward_packed_geometry_id := 3
    reverse_packed_geometry_id := SPECIAL_EDGEID
    component := ⟨false⟩ }

/-- Environment for edgeC7: node-based edge weight sum 80, two adjacent
shortcuts with weights 90 and 100 both turning onto node 5. -/
def envC7 : Env :=
  { baseEnv with
    edges := [edgeC7]
    getUncompressedWeights := fun _ => [40, 40]
    getUncompressedDatasources := fun _ => [0, 0]
    getUncompressedGeometry := fun g =>
      if g = 101 then [5, 6] else if g = 102 then [5, 7] else [1, 2]
    getCoordinateOfNode := fun n => ⟨Int.ofNat n, Int.ofNat n⟩
    getAdjacentEdgeRange := fun s => if s = 7 then [1, 2] else []
    getEdgeData := fun _ => ⟨0, 0, true⟩
    getTarget := fun a => a
    unpackEdgeToEdges := fun _ t =>
      if t = 1 then [⟨100, 90, true⟩, ⟨101, 0, true⟩]
      else [⟨100, 100, true⟩, ⟨102, 0, true⟩]
    getGeometryIndexForEdgeID := fun e => e
    projectPx := fun c => ((c.lon : ℚ), (c.lat : ℚ)) }

/-- The turn-data list the tally pass produces for edgeC7. -/
def tdsC7 : List TurnData := (tally envC7).all_turn_data.headD []

/-- A small well-formed interning table holding the single value 5. -/
def tableC8 : ValueTable := ⟨[5], [(5, 0)]⟩

theorem lookupAssoc_append_of_some {α β : Type} [DecidableEq α]
    {m1 : List (α × β)} (m2 : List (α × β)) {k : α} {v : β}
    (h : lookupAssoc m1 k = some v) : lookupAssoc (m1 ++ m2) k = some v := by
  induction m1 with
  | nil => simp [lookupAssoc] at h
  | cons p rest ih =>
      rw [lookupAssoc] at h
      rw [List.cons_append, lookupAssoc]
      by_cases hk : p.1 = k
      · simpa [hk] using h
      · simp only [hk, if_false] at h ⊢
        exact ih h

theorem lookupAssoc_append_of_none {α β : Type} [DecidableEq α]
    {m1 : List (α × β)} (m2 : List (α × β)) {k : α}
    (h : lookupAssoc m1 k = none) : lookupAssoc (m1 ++ m2) k = lookupAssoc m2 k := by
  induction m1 with
  | nil => simp
  | cons p rest ih =>
      rw [lookupAssoc] at h
      rw [List.cons_append, lookupAssoc]
      by_cases hk : p.1 = k
      · simp [hk] at h
      · simp only [hk, if_false] at h ⊢
        exact ih h

theorem offsetIn_append_of_mem {l1 : List Int} (l2 : List Int) {v : Int}
    (h : v ∈ l1) : offsetIn (l1 ++ l2) v = offsetIn l1 v := by
  induction l1 with
  | nil => simp at h
  | cons x xs ih =>
      rw [List.cons_append, offsetIn, offsetIn]
      by_cases hx : x = v
      · simp [hx]
      · rcases List.mem_cons.mp h with h1 | h1
        · exact absurd h1.symm hx
        · simp only [hx, if_false]
          rw [ih h1]

theorem offsetIn_append_self {l : List Int} {v : Int} (h : v ∉ l) :
    offsetIn (l ++ [v]) v = l.length := by
  induction l with
  | nil => simp [offsetIn]
  | cons x xs ih =>
      have hx : x ≠ v := fun he => h (he ▸ List.mem_cons_self x xs)
      have hxs : v ∉ xs := fun hm => h (List.mem_cons_of_mem x hm)
      rw [List.cons_append, offsetIn]
      simp only [hx, if_false, List.length_cons]
      rw [ih hxs]

theorem getD_offsetIn {l : List Int} {v : Int} (h : v ∈ l) :
    l.getD (offsetIn l v) 0 = v := by
  induction l with
  | nil => simp at h
  | cons x xs ih =>
      rw [offsetIn]
      by_cases hx : x = v
      · simp [hx]
      · rcases List.mem_cons.mp h with h1 | h1
        · exact absurd h1.symm hx
        · simp only [hx, if_false]
          exact ih h1

theorem getD_append_length (l : List Int) (v : Int) :
    (l ++ [v]).getD l.length 0 = v := by
  induction l with
  | nil => rfl
  | cons x xs ih => simpa using ih

theorem use_point_value_snd (s : ValueTable) (v : Int) :
    (use_point_value s v).2 = use_line_value s v := by
  rw [use_point_value, use_line_value]
  cases lookupAssoc s.int_offsets v <;> rfl

theorem use_line_value_eq {s : ValueTable} (v : Int) (h : TableWF s) :
    use_line_value s v =
      (if v ∈ s.used_ints then s
       else ⟨s.used_ints ++ [v], s.int_offsets ++ [(v, s.used_ints.length)]⟩) := by
  rw [use_line_value, h v]
  by_cases hv : v ∈ s.used_ints
  · simp [hv]
  · simp [hv]

theorem use_line_value_wf {s : ValueTable} (v : Int) (h : TableWF s) :
    TableWF (use_line_value s v) ∧
    (use_line_value s v).used_ints =
      (if v ∈ s.used_ints then s.used_ints else s.used_ints ++ [v]) := by
  by_cases hv : v ∈ s.used_ints
  · rw [use_line_value_eq v h, if_pos hv, if_pos hv]
    exact ⟨h, rfl⟩
  · rw [use_line_value_eq v h, if_neg hv, if_neg hv]
    refine ⟨?_, rfl⟩
    intro w
    by_cases hw : w ∈ s.used_ints
    · have hlk : lookupAssoc s.int_offsets w = some (offsetIn s.used_ints w) := by
        rw [h w]; simp [hw]
      have := lookupAssoc_append_of_some [(v, s.used_ints.length)] hlk
      rw [this]
      have hmem : w ∈ s.used_ints ++ [v] := List.mem_append_left _ hw
      simp only [hmem, if_true]
      rw [offsetIn_append_of_mem _ hw]
    · have hlk : lookupAssoc s.int_offsets w = none := by
        rw [h w]; simp [hw]
      have := lookupAssoc_append_of_none [(v, s.used_ints.length)] hlk
      rw [this]
      by_cases hwv : w = v
      · subst hwv
        have hmem : w ∈ s.used_ints ++ [w] := by simp
        simp only [hmem, if_true, lookupAssoc, if_pos rfl]
        rw [offsetIn_append_self hw]
      · have hmem : w ∉ s.used_ints ++ [v] := by
          simp [hw, hwv]
        simp only [hmem, if_false, lookupAssoc]
        rw [if_neg fun he : v = w => hwv he.symm]

theorem use_line_value_of_mem {s : ValueTable} {v : Int} (h : TableWF s)
    (hv : v ∈ s.used_ints) : use_line_value s v = s := by
  rw [use_line_value_eq v h]
  simp [hv]

theorem use_point_value_fst {s : ValueTable} (v : Int) (h : TableWF s) :
    (use_point_value s v).1 =
      (if v ∈ s.used_ints then offsetIn s.used_ints v else s.used_ints.length) := by
  rw [use_point_value, h v]
  by_cases hv : v ∈ s.used_ints <;> simp [hv]

theorem use_point_value_resolve {s : ValueTable} (v : Int) (h : TableWF s) :
    ((use_point_value s v).2).used_ints.getD (use_point_value s v).1 0 = v := by
  rw [use_point_value_snd, use_point_value_fst v h, (use_line_value_wf v h).2]
  by_cases hv : v ∈ s.used_ints
  · simp only [hv, if_true]
    exact getD_offsetIn hv
  · simp only [hv, if_false]
    exact getD_append_length _ _

theorem use_line_value_stable {s : ValueTable} {w : Int} {o : Nat} (v : Int)
    (h : lookupAssoc s.int_offsets w = some o) :
    lookupAssoc (use_line_value s v).int_offsets w = some o := by
  rw [use_line_value]
  cases hl : lookupAssoc s.int_offsets v with
  | some _ => exact h
  | none => exact lookupAssoc_append_of_some _ h

theorem internAll_append (s : ValueTable) (l1 l2 : List Int) :
    internAll s (l1 ++ l2) = internAll (internAll s l1) l2 :=
  List.foldl_append _ _ _ _

theorem internAll_wf {s : ValueTable} (l : List Int) (h : TableWF s) :
    TableWF (internAll s l) ∧
    (internAll s l).used_ints = firstSeenFold s.used_ints l := by
  induction l generalizing s with
  | nil => exact ⟨h, rfl⟩
  | cons v rest ih =>
      have hstep := use_line_value_wf v h
      have hrec := ih hstep.1
      have h1 : internAll s (v :: rest) = internAll (use_line_value s v) rest := rfl
      have h2 : firstSeenFold s.used_ints (v :: rest) =
          firstSeenFold (if v ∈ s.used_ints then s.used_ints else s.used_ints ++ [v]) rest := rfl
      rw [h1, h2, ← hstep.2]
      exact hrec

theorem mem_firstSeenFold {a l : List Int} {v : Int} :
    v ∈ firstSeenFold a l ↔ v ∈ a ∨ v ∈ l := by
  induction l generalizing a with
  | nil => simp [firstSeenFold]
  | cons x xs ih =>
      rw [firstSeenFold, List.foldl_cons,
        show (xs.foldl (fun acc w => if w ∈ acc then acc else acc ++ [w])
          (if x ∈ a then a else a ++ [x])) =
          firstSeenFold (if x ∈ a then a else a ++ [x]) xs from rfl, ih]
      by_cases hx : x ∈ a
      · simp only [hx, if_true, List.mem_cons]
        constructor
        · rintro (h1 | h1)
          · exact Or.inl h1
          · exact Or.inr (Or.inr h1)
        · rintro (h1 | h1 | h1)
          · exact Or.inl h1
          · exact Or.inl (h1 ▸ hx)
          · exact Or.inr h1
      · simp only [hx, if_false, List.mem_append, List.mem_singleton, List.mem_cons]
        tauto

theorem foldl_append_shift {α β : Type} (f : β → List α) :
    ∀ (l : List β) (acc : List α),
      l.foldl (fun a b => a ++ f b) acc = acc ++ l.foldl (fun a b => a ++ f b) [] := by
  intro l
  induction l with
  | nil => simp
  | cons x xs ih =>
      intro acc
      rw [List.foldl_cons, List.foldl_cons, ih (acc ++ f x), ih (List.nil ++ f x)]
      simp

theorem mem_foldl_append {α β : Type} (f : β → List α) :
    ∀ (l : List β) (acc : List α) (x : α),
      x ∈ l.foldl (fun a b => a ++ f b) acc ↔ x ∈ acc ∨ ∃ b ∈ l, x ∈ f b := by
  intro l
  induction l with
  | nil => simp
  | cons y ys ih =>
      intro acc x
      rw [List.foldl_cons, ih]
      simp only [List.mem_append, List.mem_cons]
      constructor
      · rintro ((h1 | h1) | ⟨b, hb, hx⟩)
        · exact Or.inl h1
        · exact Or.inr ⟨y, Or.inl rfl, h1⟩
        · exact Or.inr ⟨b, Or.inr hb, hx⟩
      · rintro (h1 | ⟨b, hb | hb, hx⟩)
        · exact Or.inl (Or.inl h1)
        · exact Or.inl (Or.inr (hb ▸ hx))
        · exact Or.inr ⟨b, hb, hx⟩

theorem foldl_max_init_le (l : List Nat) : ∀ a : Nat, a ≤ l.foldl max a := by
  induction l with
  | nil => exact fun a => Nat.le_refl a
  | cons x xs ih =>
      intro a
      rw [List.foldl_cons]
      exact Nat.le_trans (Nat.le_max_left a x) (ih (max a x))

theorem le_foldl_max_of_mem : ∀ {l : List Nat} {x : Nat}, x ∈ l → ∀ a : Nat,
    x ≤ l.foldl max a := by
  intro l
  induction l with
  | nil => intro x h; simp at h
  | cons y ys ih =>
      intro x h a
      rw [List.foldl_cons]
      rcases List.mem_cons.mp h with h1 | h1
      · rw [h1]
        exact Nat.le_trans (Nat.le_max_right a y) (foldl_max_init_le ys (max a y))
      · exact ih h1 (max a y)

theorem foldl_max_absorb {l : List Nat} {a : Nat} (h : ∀ x ∈ l, x ≤ a) :
    l.foldl max a = a := by
  induction l with
  | nil => rfl
  | cons y ys ih =>
      rw [List.foldl_cons, Nat.max_eq_left (h y (List.mem_cons_self y ys))]
      exact ih fun x hx => h x (List.mem_cons_of_mem y hx)

theorem listIsEmpty_iff {α : Type} {l : List α} : l.isEmpty = true ↔ l = [] := by
  cases l <;> simp

theorem tallyEdge_line (env : Env) (s : TallyState) (e : EdgeInfo) :
    (tallyEdge env s e).line = internAll s.line (edgeLineWeights env e) := by
  by_cases hf : e.forward_packed_geometry_id = SPECIAL_EDGEID <;>
    by_cases hr : e.reverse_packed_geometry_id = SPECIAL_EDGEID <;>
      simp [tallyEdge, edgeLineWeights, internAll, hf, hr]

theorem tallyFold_line (env : Env) :
    ∀ (l : List EdgeInfo) (s : TallyState),
      (l.foldl (tallyEdge env) s).line =
        internAll s.line (l.foldl (fun a e => a ++ edgeLineWeights env e) []) := by
  intro l
  induction l with
  | nil => intro s; rfl
  | cons e es ih =>
      intro s
      rw [List.foldl_cons, List.foldl_cons, ih,
        foldl_append_shift (edgeLineWeights env) es ([] ++ edgeLineWeights env e),
        List.nil_append, tallyEdge_line, internAll_append]

theorem tallyEdge_max (env : Env) (s : TallyState) (e : EdgeInfo) :
    (tallyEdge env s e).max_datasource_id =
      max (max s.max_datasource_id (forwardDatasource env e)) (reverseDatasource env e) := rfl

theorem tallyFold_max (env : Env) :
    ∀ (l : List EdgeInfo) (s : TallyState),
      (l.foldl (tallyEdge env) s).max_datasource_id =
        (l.foldl
          (fun acc e => acc ++ [forwardDatasource env e, reverseDatasource env e]) []).foldl
          max s.max_datasource_id := by
  intro l
  induction l with
  | nil => intro s; rfl
  | cons e es ih =>
      intro s
      rw [List.foldl_cons, List.foldl_cons, ih,
        foldl_append_shift (fun e => [forwardDatasource env e, reverseDatasource env e]) es
          ([] ++ [forwardDatasource env e, reverseDatasource env e]),
        List.nil_append, List.foldl_append, tallyEdge_max]
      rfl

theorem tally_max_eq (env : Env) :
    (tally env).max_datasource_id = maxObservedDatasource env := by
  rw [tally, tallyFold_max env env.edges _, maxObservedDatasource]

theorem tallyFold_turnlen (env : Env) :
    ∀ (l : List EdgeInfo) (s : TallyState),
      (l.foldl (tallyEdge env) s).all_turn_data.length =
        s.all_turn_data.length + l.length := by
  intro l
  induction l with
  | nil => intro s; simp
  | cons e es ih =>
      intro s
      rw [List.foldl_cons, ih]
      have : (tallyEdge env s e).all_turn_data = s.all_turn_data ++ [(edgeTurnData env e s.point).1] := rfl
      rw [this]
      simp [Nat.add_comm, Nat.add_assoc, Nat.add_left_comm]

theorem tally_turnlen (env : Env) :
    (tally env).all_turn_data.length = env.edges.length := by
  rw [tally, tallyFold_turnlen env env.edges _]
  simp

theorem tableWF_nil : TableWF ⟨[], []⟩ := by
  intro v
  simp [lookupAssoc]

theorem tally_line_char (env : Env) :
    TableWF (tally env).line ∧
    (tally env).line.used_ints = firstSeenDedup (lineWeightSeq env) := by
  have h1 : (tally env).line = internAll ⟨[], []⟩ (lineWeightSeq env) := by
    rw [tally, tallyFold_line env env.edges _, lineWeightSeq]
  rw [h1]
  exact internAll_wf (lineWeightSeq env) tableWF_nil

theorem mem_lineWeightSeq_fwd (env : Env) {e : EdgeInfo} (he : e ∈ env.edges)
    (h0 : forwardWeight env e ≠ 0) : forwardWeight env e ∈ lineWeightSeq env := by
  rw [lineWeightSeq, mem_foldl_append]
  refine Or.inr ⟨e, he, ?_⟩
  rw [edgeLineWeights]
  have hg : e.forward_packed_geometry_id ≠ SPECIAL_EDGEID := by
    intro hc
    exact h0 (by rw [forwardWeight, if_pos hc])
  simp [hg]

theorem mem_lineWeightSeq_rev (env : Env) {e : EdgeInfo} (he : e ∈ env.edges)
    (h0 : reverseWeight env e ≠ 0) : reverseWeight env e ∈ lineWeightSeq env := by
  rw [lineWeightSeq, mem_foldl_append]
  refine Or.inr ⟨e, he, ?_⟩
  rw [edgeLineWeights]
  have hg : e.reverse_packed_geometry_id ≠ SPECIAL_EDGEID := by
    intro hc
    exact h0 (by rw [reverseWeight, if_pos hc])
  simp [hg]

theorem ds_le_maxObserved (env : Env) {e : EdgeInfo} (he : e ∈ env.edges) :
    forwardDatasource env e ≤ maxObservedDatasource env ∧
    reverseDatasource env e ≤ maxObservedDatasource env := by
  rw [maxObservedDatasource]
  constructor <;>
  · apply le_foldl_max_of_mem
    rw [mem_foldl_append (fun e => [forwardDatasource env e, reverseDatasource env e])]
    exact Or.inr ⟨e, he, by simp⟩

theorem forwardLineFeature_isSome (env : Env) (off : List (Int × Nat)) (m idv : Nat)
    (e : EdgeInfo) :
    (forwardLineFeature env off m e idv).isSome = true ↔
      (forwardWeight env e ≠ 0 ∧ e.forward_segment_id.enabled = true ∧
        coordinatesToTileLine env (env.getCoordinateOfNode e.u)
          (env.getCoordinateOfNode e.v) ≠ []) := by
  simp only [forwardLineFeature]
  split_ifs with h1 h2
  · constructor
    · intro hcon
      exact absurd hcon (by simp)
    · intro hcon
      exact absurd (listIsEmpty_iff.mp h2) hcon.2.2
  · constructor
    · intro _
      refine ⟨h1.1, h1.2, ?_⟩
      intro hnil
      rw [hnil] at h2
      exact h2 rfl
    · intro _
      rfl
  · constructor
    · intro hcon
      exact absurd hcon (by simp)
    · intro hcon
      exact absurd ⟨hcon.1, hcon.2.1⟩ h1

theorem reverseLineFeature_isSome (env : Env) (off : List (Int × Nat)) (m idv : Nat)
    (e : EdgeInfo) :
    (reverseLineFeature env off m e idv).isSome = true ↔
      (reverseWeight env e ≠ 0 ∧ e.reverse_segment_id.enabled = true ∧
        coordinatesToTileLine env (env.getCoordinateOfNode e.v)
          (env.getCoordinateOfNode e.u) ≠ []) := by
  simp only [reverseLineFeature]
  split_ifs with h1 h2
  · constructor
    · intro hcon
      exact absurd hcon (by simp)
    · intro hcon
      exact absurd (listIsEmpty_iff.mp h2) hcon.2.2
  · constructor
    · intro _
      refine ⟨h1.1, h1.2, ?_⟩
      intro hnil
      rw [hnil] at h2
      exact h2 rfl
    · intro _
      rfl
  · constructor
    · intro hcon
      exact absurd hcon (by simp)
    · intro hcon
      exact absurd ⟨hcon.1, hcon.2.1⟩ h1

theorem forwardLineFeature_some {env : Env} {off : List (Int × Nat)} {m idv : Nat}
    {e : EdgeInfo} {f : Feature}
    (h : forwardLineFeature env off m e idv = some f) :
    forwardWeight env e ≠ 0 ∧ e.forward_segment_id.enabled = true ∧
    coordinatesToTileLine env (env.getCoordinateOfNode e.u)
      (env.getCoordinateOfNode e.v) ≠ [] ∧
    f = encode_tile_line e m idv
      (coordinatesToTileLine env (env.getCoordinateOfNode e.u) (env.getCoordinateOfNode e.v))
      (speed_kmh
        (env.haversineDistance (env.getCoordinateOfNode e.u) (env.getCoordinateOfNode e.v))
        (forwardWeight env e))
      ((lookupAssoc off (forwardWeight env e)).getD 0)
      (forwardDatasource env e) := by
  simp only [forwardLineFeature] at h
  split_ifs at h with h1 h2
  · injection h with hf
    refine ⟨h1.1, h1.2, ?_, hf.symm⟩
    intro hnil
    rw [hnil] at h2
    exact h2 rfl

theorem reverseLineFeature_some {env : Env} {off : List (Int × Nat)} {m idv : Nat}
    {e : EdgeInfo} {f : Feature}
    (h : reverseLineFeature env off m e idv = some f) :
    reverseWeight env e ≠ 0 ∧ e.reverse_segment_id.enabled = true ∧
    coordinatesToTileLine env (env.getCoordinateOfNode e.v)
      (env.getCoordinateOfNode e.u) ≠ [] ∧
    f = encode_tile_line e m idv
      (coordinatesToTileLine env (env.getCoordinateOfNode e.v) (env.getCoordinateOfNode e.u))
      (speed_kmh
        (env.haversineDistance (env.getCoordinateOfNode e.u) (env.getCoordinateOfNode e.v))
        (reverseWeight env e))
      ((lookupAssoc off (reverseWeight env e)).getD 0)
      (reverseDatasource env e) := by
  simp only [reverseLineFeature] at h
  split_ifs at h with h1 h2
  · injection h with hf
    refine ⟨h1.1, h1.2, ?_, hf.symm⟩
    intro hnil
    rw [hnil] at h2
    exact h2 rfl

theorem emitLineEdge_features (env : Env) (off : List (Int × Nat))
    (s : LineEmitState) (e : EdgeInfo) :
    (emitLineEdge env off s e).features =
      s.features
        ++ (forwardLineFeature env off
              (max (max s.max_datasource_id (forwardDatasource env e))
                (reverseDatasource env e)) e s.id).toList
        ++ (reverseLineFeature env off
              (max (max s.max_datasource_id (forwardDatasource env e))
                (reverseDatasource env e)) e
              (s.id + (if (forwardLineFeature env off
                  (max (max s.max_datasource_id (forwardDatasource env e))
                    (reverseDatasource env e)) e s.id).isSome then 1 else 0))).toList := rfl

theorem emitFold_inv (env : Env) (off : List (Int × Nat)) {M : Nat}
    (hM : ∀ e ∈ env.edges,
      forwardDatasource env e ≤ M ∧ reverseDatasource env e ≤ M) :
    ∀ (l : List EdgeInfo), (∀ e ∈ l, e ∈ env.edges) → ∀ s : LineEmitState,
      s.max_datasource_id = M →
      (l.foldl (emitLineEdge env off) s).max_datasource_id = M ∧
      ∀ f ∈ (l.foldl (emitLineEdge env off) s).features,
        f ∈ s.features ∨ ∃ e, e ∈ env.edges ∧ ∃ idv,
          (forwardLineFeature env off M e idv = some f ∨
           reverseLineFeature env off M e idv = some f) := by
  intro l
  induction l with
  | nil =>
      intro _ s hs
      exact ⟨hs, fun f hf => Or.inl hf⟩
  | cons e es ih =>
      intro hsub s hs
      have heE : e ∈ env.edges := hsub e (List.mem_cons_self e es)
      have hmds : max (max s.max_datasource_id (forwardDatasource env e))
          (reverseDatasource env e) = M := by
        rw [hs, Nat.max_eq_left (hM e heE).1, Nat.max_eq_left (hM e heE).2]
      have hmax : (emitLineEdge env off s e).max_datasource_id = M := hmds
      have hrec := ih (fun x hx => hsub x (List.mem_cons_of_mem e hx))
        (emitLineEdge env off s e) hmax
      refine ⟨by rw [List.foldl_cons]; exact hrec.1, ?_⟩
      intro f hf
      rw [List.foldl_cons] at hf
      rcases hrec.2 f hf with hin | hex
      · rw [emitLineEdge_features, hmds] at hin
        rcases List.mem_append.mp hin with hin1 | hin1
        · rcases List.mem_append.mp hin1 with hin2 | hin2
          · exact Or.inl hin2
          · have hsome := Option.mem_def.mp (Option.mem_toList.mp hin2)
            exact Or.inr ⟨e, heE, s.id, Or.inl hsome⟩
        · have hsome := Option.mem_def.mp (Option.mem_toList.mp hin1)
          exact Or.inr ⟨e, heE, _, Or.inr hsome⟩
      · exact Or.inr hex

theorem speedsLayer_features (env : Env) :
    (speedsLayer env).features =
      (speedsFeaturesState env (tally env).line.int_offsets
        (tally env).max_datasource_id).features := rfl

theorem speeds_shape (env : Env) :
    (speedsFeaturesState env (tally env).line.int_offsets
        (tally env).max_datasource_id).max_datasource_id = maxObservedDatasource env ∧
    ∀ f ∈ (speedsLayer env).features, ∃ e, e ∈ env.edges ∧ ∃ idv,
      (forwardLineFeature env (tally env).line.int_offsets
          (maxObservedDatasource env) e idv = some f ∨
       reverseLineFeature env (tally env).line.int_offsets
          (maxObservedDatasource env) e idv = some f) := by
  have hinv := emitFold_inv env (tally env).line.int_offsets
    (fun e he => ds_le_maxObserved env he) env.edges (fun _ h => h)
    ⟨1, (tally env).max_datasource_id, []⟩ (tally_max_eq env)
  refine ⟨hinv.1, ?_⟩
  intro f hf
  rw [speedsLayer_features] at hf
  rcases hinv.2 f hf with hin | hex
  · simp at hin
  · exact hex

theorem use_point_value_wf2 {s : ValueTable} (v : Int) (h : TableWF s) :
    TableWF (use_point_value s v).2 := by
  rw [use_point_value_snd]
  exact (use_line_value_wf v h).1

theorem cNodes_eq_filterMap (env : Env) (seg : Nat) (snw : Int) :
    ∀ (adjs : List Nat) (m : List (Nat × Int)),
      adjs.foldl (fun m adj =>
        match shortcutTurn env seg snw adj with
        | none => m
        | some kv => emplaceAssoc m kv.1 kv.2) m =
      (adjs.filterMap (shortcutTurn env seg snw)).foldl
        (fun m kv => emplaceAssoc m kv.1 kv.2) m := by
  intro adjs
  induction adjs with
  | nil => intro m; rfl
  | cons a rest ih =>
      intro m
      cases hs : shortcutTurn env seg snw a with
      | none => simp [hs, ih]
      | some kv => simp [hs, ih]

theorem duration_offset_fwd (env : Env) {e : EdgeInfo} (he : e ∈ env.edges)
    (h0 : forwardWeight env e ≠ 0) :
    (lookupAssoc (tally env).line.int_offsets (forwardWeight env e)).getD 0 =
      offsetIn (firstSeenDedup (lineWeightSeq env)) (forwardWeight env e) := by
  have hchar := tally_line_char env
  have hmem : forwardWeight env e ∈ (tally env).line.used_ints := by
    rw [hchar.2, firstSeenDedup]
    exact mem_firstSeenFold.mpr (Or.inr (mem_lineWeightSeq_fwd env he h0))
  rw [hchar.1 (forwardWeight env e), if_pos hmem, Option.getD_some, hchar.2]

theorem duration_offset_rev (env : Env) {e : EdgeInfo} (he : e ∈ env.edges)
    (h0 : reverseWeight env e ≠ 0) :
    (lookupAssoc (tally env).line.int_offsets (reverseWeight env e)).getD 0 =
      offsetIn (firstSeenDedup (lineWeightSeq env)) (reverseWeight env e) := by
  have hchar := tally_line_char env
  have hmem : reverseWeight env e ∈ (tally env).line.used_ints := by
    rw [hchar.2, firstSeenDedup]
    exact mem_firstSeenFold.mpr (Or.inr (mem_lineWeightSeq_rev env he h0))
  rw [hchar.1 (reverseWeight env e), if_pos hmem, Option.getD_some, hchar.2]

theorem encodeLinestring_two (p1 p2 : Int × Int) :
    (encodeLinestring [p1, p2] 0 0).2.1 =
      [9, encode_zigzag32 p1.1, encode_zigzag32 p1.2, encode_length 1,
       encode_zigzag32 (p2.1 - p1.1), encode_zigzag32 (p2.2 - p1.2)] := by
  simp [encodeLinestring]

theorem coordinatesToTileLine_shape (env : Env) (a b : Coordinate) :
    coordinatesToTileLine env a b = [] ∨
    ((coordinatesToTileLine env a b).length = 2 ∧
     coordinatesToTileLine env a b =
       ((env.clipLine (env.projectPx a) (env.projectPx b)).headD []).map
         (fun pt => (truncToInt pt.1, truncToInt pt.2))) := by
  rw [coordinatesToTileLine]
  split_ifs with hcl
  · refine Or.inr ⟨?_, rfl⟩
    rw [List.length_map, hcl.2]
  · exact Or.inl rfl

theorem pointFeaturesList_foldl (tp : Int × Int) :
    ∀ (tds : List TurnData) (idv : Nat) (acc : List Feature),
      ((tds.foldl
          (fun a td => (a.1 + 1, a.2 ++ [encode_tile_point a.1 tp td]))
          (idv, acc)).2.length = acc.length + tds.length ∧
       ∀ f ∈ (tds.foldl
          (fun a td => (a.1 + 1, a.2 ++ [encode_tile_point a.1 tp td]))
          (idv, acc)).2,
         f ∈ acc ∨ ∃ i td, f = encode_tile_point i tp td) := by
  intro tds
  induction tds with
  | nil => intro idv acc; exact ⟨by simp, fun f hf => Or.inl hf⟩
  | cons td rest ih =>
      intro idv acc
      rw [List.foldl_cons]
      have h2 := ih (idv + 1) (acc ++ [encode_tile_point idv tp td])
      constructor
      · rw [show ((idv, acc).1 + 1, (idv, acc).2 ++ [encode_tile_point (idv, acc).1 tp td]) =
            (idv + 1, acc ++ [encode_tile_point idv tp td]) from rfl, h2.1]
        simp [Nat.add_assoc, Nat.add_comm, Nat.add_left_comm]
      · intro f hf
        rw [show ((idv, acc).1 + 1, (idv, acc).2 ++ [encode_tile_point (idv, acc).1 tp td]) =
            (idv + 1, acc ++ [encode_tile_point idv tp td]) from rfl] at hf
        rcases h2.2 f hf with hin | hex
        · rcases List.mem_append.mp hin with h3 | h3
          · exact Or.inl h3
          · exact Or.inr ⟨idv, td, by simpa using h3⟩
        · exact Or.inr hex

theorem pointFeaturesForEdge_eq (env : Env) (edge : EdgeInfo)
    (tds : List TurnData) (idv : Nat) :
    pointFeaturesForEdge env edge tds idv =
      (if tds.isEmpty = true then []
       else if (edge.fwd_segment_position : Int) ≠
          ((env.getUncompressedGeometry edge.forward_packed_geometry_id).length : Int)
            - 1 then []
       else if pointWithinClip
          (coordinatesToTilePoint env (env.getCoordinateOfNode edge.v)) = false then []
       else pointFeaturesList
          (coordinatesToTilePoint env (env.getCoordinateOfNode edge.v)) idv tds) := by
  rw [pointFeaturesForEdge]
  rcases Bool.eq_false_or_eq_true (pointWithinClip
    (coordinatesToTilePoint env (env.getCoordinateOfNode edge.v))) with hb | hb <;>
    simp [hb]

theorem headD_mem {α : Type} {l : List α} (d : α) (h : l ≠ []) : l.headD d ∈ l := by
  cases l with
  | nil => exact absurd rfl h
  | cons x xs => exact List.mem_cons_self x xs

theorem append_toList_ne_nil {o : Option Feature} (pre post : List Feature)
    (h : o.isSome = true) : pre ++ o.toList ++ post ≠ [] := by
  obtain ⟨f1, hf1⟩ := Option.isSome_iff_exists.mp h
  rw [hf1]
  simp

theorem fC6_mem : fC6 ∈ (speedsLayer envC6).features := by
  have h : (speedsLayer envC6).features ≠ [] := by
    rw [speedsLayer_features, speedsFeaturesState,
      show envC6.edges = [edgeC6] from rfl, List.foldl_cons, List.foldl_nil,
      emitLineEdge_features]
    apply append_toList_ne_nil
    rw [forwardLineFeature_isSome]
    exact ⟨by decide, by decide, by decide⟩
  exact headD_mem _ h

/-- C1: the claim asserts last-write-wins on c_nodes; the code uses
std::unordered_map::emplace, which keeps the FIRST inserted value.  At the
concrete environment envC1, two retained shortcuts unpack to the same next
node 5 with turn weights 10 (processed first) and 20 (processed second), and
the c_nodes map contains the FIRST weight 10, not the later 20. -/
theorem c1_counterexample :
    List.filterMap (shortcutTurn envC1 7 40) [1, 2] = [(5, 10), (5, 20)] ∧
    cNodes envC1 7 40 [1, 2] = [(5, 10)] ∧ (10 : Int) ≠ 20 :=
  ⟨by decide, by decide, by decide⟩

/-- C1 (amended): when the retained shortcuts of an intersection unpack to
the same next_node with two different turn weights, the c_nodes map
collapses to one entry carrying the FIRST-processed weight (first-write-wins,
std::unordered_map::emplace), and exactly one TurnData record is produced
for that node, whose weight offset resolves to the first-processed weight. -/
theorem c1_first_write_wins (env : Env) (seg : Nat) (snw : Int) (adjs : List Nat)
    (n : Nat) (w1 w2 : Int) (cb : Coordinate) (aio : Nat) (p : ValueTable)
    (hWF : TableWF p)
    (h : adjs.filterMap (shortcutTurn env seg snw) = [(n, w1), (n, w2)]) :
    cNodes env seg snw adjs = [(n, w1)] ∧
    (recordsFromCNodes env cb aio [(n, w1)] p).1.length = 1 ∧
    ∀ td ∈ (recordsFromCNodes env cb aio [(n, w1)] p).1,
      td.in_angle_offset = aio ∧
      (recordsFromCNodes env cb aio [(n, w1)] p).2.used_ints.getD td.weight_offset 0
        = w1 := by
  have hc : cNodes env seg snw adjs = [(n, w1)] := by
    rw [cNodes, cNodes_eq_filterMap, h]
    simp [emplaceAssoc, lookupAssoc]
  refine ⟨hc, rfl, ?_⟩
  intro td htd
  simp only [recordsFromCNodes, List.foldl_cons, List.foldl_nil] at htd ⊢
  rcases List.mem_singleton.mp htd with rfl
  refine ⟨rfl, ?_⟩
  exact use_point_value_resolve w1 (use_point_value_wf2 _ hWF)

/-- C1 witness: the amended statement at the concrete environment envC1. -/
theorem c1_witness :
    cNodes envC1 7 40 [1, 2] = [(5, 10)] ∧
    (recordsFromCNodes envC1 ⟨0, 0⟩ 0 [(5, 10)] ⟨[], []⟩).1.length = 1 ∧
    ∀ td ∈ (recordsFromCNodes envC1 ⟨0, 0⟩ 0 [(5, 10)] ⟨[], []⟩).1,
      td.in_angle_offset = 0 ∧
      (recordsFromCNodes envC1 ⟨0, 0⟩ 0 [(5, 10)] ⟨[], []⟩).2.used_ints.getD
        td.weight_offset 0 = 10 :=
  c1_first_write_wins envC1 7 40 [1, 2] 5 10 20 ⟨0, 0⟩ 0 ⟨[], []⟩ tableWF_nil (by decide)

/-- C2: as stated the claim is an iff on weight and enabled alone; the code
additionally requires the clipped tile line to be nonempty.  At envC2 the
forward weight is nonzero and the direction enabled, yet no feature is
emitted because the segment clips to nothing. -/
theorem c2_counterexample :
    forwardWeight envC2 edgeC2 ≠ 0 ∧
    edgeC2.forward_segment_id.enabled = true ∧
    edgeC2 ∈ envC2.edges ∧
    (speedsLayer envC2).features = [] :=
  ⟨by decide, by decide, by decide, by decide⟩

/-- C2 (amended): for each direction of each edge, a "speeds" line feature
is emitted iff that direction's weight is nonzero, that direction's segment
is enabled, AND the clipped tile line is nonempty. -/
theorem c2_emission_iff (env : Env) (off : List (Int × Nat)) (m idv : Nat)
    (e : EdgeInfo) :
    ((forwardLineFeature env off m e idv).isSome = true ↔
      (forwardWeight env e ≠ 0 ∧ e.forward_segment_id.enabled = true ∧
        coordinatesToTileLine env (env.getCoordinateOfNode e.u)
          (env.getCoordinateOfNode e.v) ≠ [])) ∧
    ((reverseLineFeature env off m e idv).isSome = true ↔
      (reverseWeight env e ≠ 0 ∧ e.reverse_segment_id.enabled = true ∧
        coordinatesToTileLine env (env.getCoordinateOfNode e.v)
          (env.getCoordinateOfNode e.u) ≠ [])) :=
  ⟨forwardLineFeature_isSome env off m idv e, reverseLineFeature_isSome env off m idv e⟩

/-- C3: the code contains no length check and no DataInconsistency error
path; even when the facade's weight array is not longer than the requested
segment position, HandleRequest completes and returns Status::Ok. -/
theorem c3_counterexample :
    ((envC3.getUncompressedWeights edgeC3.forward_packed_geometry_id).length ≤
      edgeC3.fwd_segment_position) ∧
    edgeC3 ∈ envC3.edges ∧
    (HandleRequest envC3 ⟨1, 1, 1⟩).1 = Status.Ok ∧
    Status.Ok ≠ Status.Error :=
  ⟨by decide, by decide, rfl, by decide⟩

/-- C3 (amended): a facade attribute array no longer than the requested
segment position is not detected: HandleRequest performs the unchecked reads
and still returns Status::Ok with both layers, surfacing no error. -/
theorem c3_no_data_inconsistency_error (env : Env) (params : TileParameters)
    (e : EdgeInfo) (h1 : e ∈ env.edges)
    (h2 : (env.getUncompressedWeights e.forward_packed_geometry_id).length ≤
      e.fwd_segment_position) :
    (HandleRequest env params).1 = Status.Ok ∧
    (HandleRequest env params).2.length = 2 :=
  ⟨rfl, rfl⟩

/-- C3 witness: the amended statement at the concrete environment envC3. -/
theorem c3_witness :
    (edgeC3 ∈ envC3.edges ∧
      (envC3.getUncompressedWeights edgeC3.forward_packed_geometry_id).length ≤
        edgeC3.fwd_segment_position) ∧
    ((HandleRequest envC3 ⟨1, 1, 1⟩).1 = Status.Ok ∧
      (HandleRequest envC3 ⟨1, 1, 1⟩).2.length = 2) :=
  ⟨⟨by decide, by decide⟩,
    c3_no_data_inconsistency_error envC3 ⟨1, 1, 1⟩ edgeC3 (by decide) (by decide)⟩

/-- C4: HandleRequest does not reject an out-of-range request; validity is
only a debug assertion, and the request pC4 (x = 4 at z = 2) is processed
to completion with Status::Ok, no InvalidArgument error being signalled. -/
theorem c4_counterexample :
    TileParameters.IsValid pC4 = false ∧
    (HandleRequest baseEnv pC4).1 = Status.Ok ∧
    Status.Ok ≠ Status.Error :=
  ⟨by decide, rfl, by decide⟩

/-- C4 (amended): HandleRequest performs no request validation (the
BOOST_ASSERT is debug-only); for any invalid request it still runs to
completion and returns Status::Ok with both layers. -/
theorem c4_no_invalid_argument_rejection (env : Env) (params : TileParameters)
    (h : params.IsValid = false) :
    (HandleRequest env params).1 = Status.Ok ∧
    (HandleRequest env params).2.length = 2 :=
  ⟨rfl, rfl⟩

/-- C4 witness: the amended statement at the invalid request pC4. -/
theorem c4_witness :
    TileParameters.IsValid pC4 = false ∧
    ((HandleRequest baseEnv pC4).1 = Status.Ok ∧
      (HandleRequest baseEnv pC4).2.length = 2) :=
  ⟨by decide, c4_no_invalid_argument_rejection baseEnv pC4 (by decide)⟩

/-- C5: the "speeds" layer's values array is exactly uint64 0..127 (index =
value), then booleans true and false, then the datasource names for ids
0..max_datasource_id (the maximum observed over all forward and reverse
directions of all edges, hence max+1 entries), then one double entry per
distinct interned line weight in first-seen order. -/
theorem c5_values_layout (env : Env) :
    (speedsLayer env).values =
      ((List.range 128).map fun i => Value.uint i)
        ++ [Value.boolean true, Value.boolean false]
        ++ ((List.range (maxObservedDatasource env + 1)).map fun i =>
              Value.str (env.getDatasourceName i))
        ++ ((firstSeenDedup (lineWeightSeq env)).map fun v =>
              Value.dbl ((v : ℚ) / 10)) := by
  have hv : (speedsLayer env).values =
      speedsValues env
        (speedsFeaturesState env (tally env).line.int_offsets
          (tally env).max_datasource_id).max_datasource_id
        (tally env).line.used_ints := rfl
  rw [hv, (speeds_shape env).1, (tally_line_char env).2, speedsValues]

/-- C6: every emitted "speeds" feature carries exactly the four attribute
tag pairs [0 ↦ min(speed_kmh, 127), 1 ↦ 128 + (is_tiny ? 0 : 1),
2 ↦ 130 + datasource_id, 3 ↦ 130 + max_datasource_id + 1 + offset_of(weight)]
of its edge, in one of the two directions, where speed_kmh is computed from
the great-circle length between the edge endpoints and the direction's
weight in deciseconds. -/
theorem c6_feature_tags (env : Env) (f : Feature)
    (hf : f ∈ (speedsLayer env).features) :
    ∃ e, e ∈ env.edges ∧
      (f.tags = forwardTags env e ∨ f.tags = reverseTags env e) := by
  obtain ⟨e, he, idv, hcase⟩ := (speeds_shape env).2 f hf
  rcases hcase with hc | hc
  · obtain ⟨hw, hen, htl, hfe⟩ := forwardLineFeature_some hc
    refine ⟨e, he, Or.inl ?_⟩
    rw [hfe, forwardTags]
    show [0, min _ 127, 1, _, 2, _, 3, _] = _
    rw [duration_offset_fwd env he hw]
  · obtain ⟨hw, hen, htl, hfe⟩ := reverseLineFeature_some hc
    refine ⟨e, he, Or.inr ?_⟩
    rw [hfe, reverseTags]
    show [0, min _ 127, 1, _, 2, _, 3, _] = _
    rw [duration_offset_rev env he hw]

/-- C6 witness: the emitted feature of envC6 carries the claimed tags. -/
theorem c6_witness :
    ∃ e, e ∈ envC6.edges ∧
      (fC6.tags = forwardTags envC6 e ∨ fC6.tags = reverseTags envC6 e) :=
  c6_feature_tags envC6 fC6 fC6_mem

/-- C7: a turn point feature is emitted only for an edge with nonempty
tally-pass turn data whose forward segment is the last segment of its
node-based edge and whose projected intersection point lies strictly within
the padded clip box; when all three hold, exactly one point feature is
emitted per TurnData record, all carrying the same projected point.  The
tally pass produces exactly one (possibly empty) turn-data list per edge. -/
theorem c7_turn_point_emission (env : Env) (edge : EdgeInfo)
    (tds : List TurnData) (idv : Nat) :
    (pointFeaturesForEdge env edge tds idv ≠ [] →
      (tds ≠ [] ∧
       (edge.fwd_segment_position : Int) =
         ((env.getUncompressedGeometry edge.forward_packed_geometry_id).length : Int) - 1 ∧
       pointWithinClip (coordinatesToTilePoint env (env.getCoordinateOfNode edge.v))
         = true)) ∧
    ((tds ≠ [] ∧
      (edge.fwd_segment_position : Int) =
        ((env.getUncompressedGeometry edge.forward_packed_geometry_id).length : Int) - 1 ∧
      pointWithinClip (coordinatesToTilePoint env (env.getCoordinateOfNode edge.v))
        = true) →
      ((pointFeaturesForEdge env edge tds idv).length = tds.length ∧
       ∀ f ∈ pointFeaturesForEdge env edge tds idv,
         f.geom_type = GeomType.point ∧
         f.geometry = encodePoint
           (coordinatesToTilePoint env (env.getCoordinateOfNode edge.v)))) ∧
    (tally env).all_turn_data.length = env.edges.length := by
  refine ⟨?_, ?_, tally_turnlen env⟩
  · intro hne
    rw [pointFeaturesForEdge_eq] at hne
    split_ifs at hne with g1 g2 g3
    · exact absurd rfl hne
    · exact absurd rfl hne
    · exact absurd rfl hne
    · refine ⟨fun hnil => g1 (by rw [hnil]; rfl), not_not.mp g2, ?_⟩
      rcases Bool.eq_false_or_eq_true (pointWithinClip
        (coordinatesToTilePoint env (env.getCoordinateOfNode edge.v))) with hb | hb
      · exact hb
      · exact absurd hb g3
  · intro hcond
    have heq : pointFeaturesForEdge env edge tds idv =
        pointFeaturesList (coordinatesToTilePoint env (env.getCoordinateOfNode edge.v))
          idv tds := by
      rw [pointFeaturesForEdge_eq]
      rw [if_neg (fun hb => hcond.1 (listIsEmpty_iff.mp hb)),
        if_neg (not_not_intro hcond.2.1),
        if_neg (fun hb => by rw [hcond.2.2] at hb; exact Bool.noConfusion hb)]
    rw [heq]
    have hspec := pointFeaturesList_foldl
      (coordinatesToTilePoint env (env.getCoordinateOfNode edge.v)) tds idv []
    refine ⟨by rw [pointFeaturesList, hspec.1]; simp, ?_⟩
    intro f hf
    rcases hspec.2 f hf with hin | ⟨i, td, hfe⟩
    · simp at hin
    · rw [hfe]
      exact ⟨rfl, rfl⟩

/-- C7 witness: the tally pass of envC7 yields one turn record for its
single intersection-terminal edge, and exactly one point feature is emitted. -/
theorem c7_witness :
    (pointFeaturesForEdge envC7 edgeC7 tdsC7 1).length = tdsC7.length ∧
    ∀ f ∈ pointFeaturesForEdge envC7 edgeC7 tdsC7 1,
      f.geom_type = GeomType.point ∧
      f.geometry = encodePoint
        (coordinatesToTilePoint envC7 (envC7.getCoordinateOfNode edgeC7.v)) :=
  (c7_turn_point_emission envC7 edgeC7 tdsC7 1).2.1 ⟨by decide, by decide, by decide⟩

/-- C8: for either interning operation on a well-formed table, a value
already present keeps the table unchanged and (for the point variant)
returns its existing offset; a new value is appended with offset =
new size - 1; offsets are stable under later interning; and two distinct
values never share an offset. -/
theorem c8_interning (s : ValueTable) (v : Int) (h : TableWF s) :
    (v ∈ s.used_ints →
      use_line_value s v = s ∧
      use_point_value s v = (offsetIn s.used_ints v, s)) ∧
    (v ∉ s.used_ints →
      (use_line_value s v).used_ints = s.used_ints ++ [v] ∧
      (use_point_value s v).1 = s.used_ints.length ∧
      lookupAssoc (use_line_value s v).int_offsets v = some s.used_ints.length) ∧
    TableWF (use_line_value s v) ∧
    (use_point_value s v).2 = use_line_value s v ∧
    (∀ w o, lookupAssoc s.int_offsets w = some o →
      lookupAssoc (use_line_value s v).int_offsets w = some o) ∧
    (∀ v1 v2 o1 o2, lookupAssoc s.int_offsets v1 = some o1 →
      lookupAssoc s.int_offsets v2 = some o2 → v1 ≠ v2 → o1 ≠ o2) := by
  have hwf2 := use_line_value_wf v h
  refine ⟨?_, ?_, hwf2.1, use_point_value_snd s v, ?_, ?_⟩
  · intro hv
    refine ⟨use_line_value_of_mem h hv, ?_⟩
    rw [use_point_value, h v, if_pos hv]
  · intro hv
    have h4 : (use_line_value s v).used_ints = s.used_ints ++ [v] := by
      rw [hwf2.2, if_neg hv]
    refine ⟨h4, by rw [use_point_value_fst v h, if_neg hv], ?_⟩
    have h3 := hwf2.1 v
    rw [h4] at h3
    have hmem : v ∈ s.used_ints ++ [v] := by simp
    rw [if_pos hmem, offsetIn_append_self hv] at h3
    exact h3
  · intro w o hw
    exact use_line_value_stable v hw
  · intro v1 v2 o1 o2 h1 h2 hne heq
    rw [h v1] at h1
    rw [h v2] at h2
    by_cases hm1 : v1 ∈ s.used_ints
    · by_cases hm2 : v2 ∈ s.used_ints
      · rw [if_pos hm1] at h1
        rw [if_pos hm2] at h2
        have e1 : offsetIn s.used_ints v1 = o1 := by injection h1
        have e2 : offsetIn s.used_ints v2 = o2 := by injection h2
        have g1 := getD_offsetIn hm1
        have g2 := getD_offsetIn hm2
        rw [e1, heq, ← e2] at g1
        exact hne (g1.symm.trans g2)
      · rw [if_neg hm2] at h2
        exact Option.noConfusion h2
    · rw [if_neg hm1] at h1
      exact Option.noConfusion h1

/-- C8 witness: interning the already-present value 5 into tableC8 leaves
the table unchanged and returns its existing offset. -/
theorem c8_witness :
    use_line_value tableC8 5 = tableC8 ∧
    use_point_value tableC8 5 = (offsetIn tableC8.used_ints 5, tableC8) := by
  have hwf : TableWF tableC8 := by
    intro w
    by_cases hw : w = (5 : Int)
    · subst hw; decide
    · simp [tableC8, lookupAssoc, hw, Ne.symm hw]
  exact (c8_interning tableC8 5 hwf).1 (by decide)

/-- C9: for every request the output is exactly two layers, the first named
"speeds" and the second named "turns", each with version 2 and extent 4096,
independently of how many features they hold. -/
theorem c9_two_layers (env : Env) (params : TileParameters) :
    (HandleRequest env params).2.map (fun l => (l.name, l.version, l.extent)) =
      [("speeds", 2, 4096), ("turns", 2, 4096)] ∧
    (HandleRequest env params).2.length = 2 :=
  ⟨rfl, rfl⟩

/-- C10: coordinatesToTileLine returns either the empty line or exactly the
two truncated points of the first clipped linestring, and consequently every
emitted "speeds" feature's geometry is one MoveTo followed by one LineTo of
count 1 — exactly two vertices. -/
theorem c10_two_point_lines (env : Env) :
    (∀ a b : Coordinate,
      coordinatesToTileLine env a b = [] ∨
      ((coordinatesToTileLine env a b).length = 2 ∧
       coordinatesToTileLine env a b =
         ((env.clipLine (env.projectPx a) (env.projectPx b)).headD []).map
           (fun pt => (truncToInt pt.1, truncToInt pt.2)))) ∧
    (∀ f ∈ (speedsLayer env).features, ∃ p1 p2 : Int × Int,
      f.geometry =
        [9, encode_zigzag32 p1.1, encode_zigzag32 p1.2, encode_length 1,
         encode_zigzag32 (p2.1 - p1.1), encode_zigzag32 (p2.2 - p1.2)]) := by
  refine ⟨fun a b => coordinatesToTileLine_shape env a b, ?_⟩
  intro f hf
  obtain ⟨e, he, idv, hcase⟩ := (speeds_shape env).2 f hf
  rcases hcase with hc | hc
  · obtain ⟨hw, hen, htl, hfe⟩ := forwardLineFeature_some hc
    rcases coordinatesToTileLine_shape env (env.getCoordinateOfNode e.u)
      (env.getCoordinateOfNode e.v) with h0 | h0
    · exact absurd h0 htl
    · obtain ⟨p1, p2, hl2⟩ := List.length_eq_two.mp h0.1
      refine ⟨p1, p2, ?_⟩
      rw [hfe]
      show (encodeLinestring (coordinatesToTileLine env _ _) 0 0).2.1 = _
      rw [hl2, encodeLinestring_two]
  · obtain ⟨hw, hen, htl, hfe⟩ := reverseLineFeature_some hc
    rcases coordinatesToTileLine_shape env (env.getCoordinateOfNode e.v)
      (env.getCoordinateOfNode e.u) with h0 | h0
    · exact absurd h0 htl
    · obtain ⟨p1, p2, hl2⟩ := List.length_eq_two.mp h0.1
      refine ⟨p1, p2, ?_⟩
      rw [hfe]
      show (encodeLinestring (coordinatesToTileLine env _ _) 0 0).2.1 = _
      rw [hl2, encodeLinestring_two]

/-- C10 witness: the geometry of the concrete emitted feature of envC6
decodes to exactly two vertices. -/
theorem c10_witness :
    ∃ p1 p2 : Int × Int,
      fC6.geometry =
        [9, encode_zigzag32 p1.1, encode_zigzag32 p1.2, encode_length 1,
         encode_zigzag32 (p2.1 - p1.1), encode_zigzag32 (p2.2 - p1.2)] :=
  (c10_two_point_lines envC6).2 fC6 fC6_mem

end OsrmTile
